import Mathlib

/-!
Shallow embedding of `regions/io/ds9_language.py` (a DS9 region-file parser)
and proofs about it.

The module parses a region file line by line: a line either declares a
coordinate system, defines a region (`circle(...)`, `box(...)`, ...), or is
ignored.  Region fields are decoded according to a per-region-type
specification table (`language_spec`) and the unit convention of the active
coordinate system (`coordinate_units`).  Lines chained with the continuation
marker `||` are accumulated into composite regions.

Python strings are modelled as Lean `String` (manipulated through `toList`
so that everything evaluates by `decide`/`rfl`), numbers as exact executable rationals (`Q`), exceptions
as `Except Err`.  External astropy capabilities (angle parsing, `SkyCoord`)
are modelled by small executable functions documented at their definitions.
-/

set_option maxRecDepth 100000
set_option maxHeartbeats 1000000

deriving instance DecidableEq for Except

/-- Errors that the Python code can raise while parsing. -/
inductive Err where
  /-- `ValueError("No coordinate system specified and a region has been found.")` -/
  | unboundCoordSys
  /-- `KeyError` from a failed dict lookup (e.g. `unit_mapping[...]`). -/
  | keyError
  /-- `IndexError` from `string_rep[-1]` on an empty string. -/
  | indexError
  /-- `ValueError` from `float(...)` / angle parsing on malformed literals. -/
  | valueError
  deriving DecidableEq, Repr

/-- Astropy units reachable in this module (`u.deg`, `u.hour`, `u.arcsec`,
`u.arcmin`, `u.rad`, `u.dimensionless_unscaled`). -/
inductive AUnit where
  | deg
  | hour
  | arcsec
  | arcmin
  | rad
  | dimensionless
  deriving DecidableEq, Repr

/-- Models `unit.is_equivalent(u.deg)`: every angular unit is equivalent to
degrees, the dimensionless unit is not. -/
def AUnit.isEquivDeg : AUnit → Bool
  | .dimensionless => false
  | _ => true

/-- Euclid's algorithm with explicit fuel (structurally recursive, so that it
reduces inside `decide`); the first argument strictly decreases, so fuel
`a + 2` always suffices. -/
def ngcdAux : ℕ → ℕ → ℕ → ℕ
  | 0, _, b => b
  | f + 1, a, b => if a = 0 then b else ngcdAux f (b % a) a

/-- Greatest common divisor, executable by kernel reduction. -/
def ngcd (a b : ℕ) : ℕ := ngcdAux (a + 2) a b

/-- Exact rational numbers in lowest terms, with structurally recursive
arithmetic (Lean's `Rat` operations use well-founded recursion and do not
reduce inside `decide`).  All numeric values of the parser live here. -/
structure Q where
  num : Int
  den : ℕ
  deriving DecidableEq, Repr

/-- Build a fraction in lowest terms. -/
def Q.mk' (n : Int) (d : ℕ) : Q :=
  if d = 0 then ⟨0, 1⟩
  else
    let g := ngcd n.natAbs d
    ⟨n / g, d / g⟩

/-- Addition of fractions. -/
def Q.add (a b : Q) : Q := Q.mk' (a.num * b.den + b.num * a.den) (a.den * b.den)

/-- Multiplication of fractions. -/
def Q.mul (a b : Q) : Q := Q.mk' (a.num * b.num) (a.den * b.den)

/-- Negation of a fraction. -/
def Q.neg (a : Q) : Q := ⟨-a.num, a.den⟩

/-- Division of fractions (never called with a zero divisor here). -/
def Q.div (a b : Q) : Q :=
  Q.mk' (a.num * b.den * (if b.num < 0 then -1 else 1)) (a.den * b.num.natAbs)

/-- A numeric value tagged with its unit: models both `astropy.units.Quantity`
and the numeric content of `astropy.coordinates.Angle`. -/
structure Quantity where
  val : Q
  unit : AUnit
  deriving DecidableEq, Repr

/-- A decoded field value.  `angle` models an `astropy.coordinates.Angle`
(the `isinstance(x, coordinates.Angle)` test in `line_parser` distinguishes
it from a plain `Quantity`); `skycoord` models the `SkyCoord` object built
from the collapsed coordinate pairs. -/
inductive Value where
  | angle (q : Quantity)
  | quantity (q : Quantity)
  | skycoord (pairs : List (Quantity × Quantity)) (frame : String)
  deriving DecidableEq, Repr

/-- Models `isinstance(x, coordinates.Angle)`. -/
def Value.isAngle : Value → Bool
  | .angle _ => true
  | _ => false

/-- Numeric content of a value (used when the collapsed pairs are packed into
a `SkyCoord`; the filter in `line_parser` only keeps pairs whose first member
is an `Angle`, and in every reachable case the second member is one too). -/
def Value.q : Value → Quantity
  | .angle q => q
  | .quantity q => q
  | .skycoord _ _ => ⟨⟨0, 1⟩, AUnit.deg⟩

/-- Numeric value of a decimal digit character. -/
def digitVal (c : Char) : ℕ := c.toNat - 48

/-- Value of a list of decimal digit characters, most significant first. -/
def digitsVal (cs : List Char) : ℕ :=
  cs.foldl (fun a c => 10 * a + digitVal c) 0

/-- Mantissa part of a Python float literal: `digits`, `digits.digits`,
`digits.` or `.digits` (at least one digit overall). -/
def parseMantissa (cs : List Char) : Option Q :=
  let ip := cs.takeWhile Char.isDigit
  let rest := cs.dropWhile Char.isDigit
  match rest with
  | [] => if ip.isEmpty then none else some ⟨digitsVal ip, 1⟩
  | '.' :: fp =>
      if fp.all Char.isDigit && !(ip.isEmpty && fp.isEmpty) then
        some (Q.mk' (digitsVal ip * 10 ^ fp.length + digitsVal fp : ℕ) (10 ^ fp.length))
      else none
  | _ => none

/-- Models Python's `float(...)` on the decimal literal forms relevant here:
optional sign, decimal mantissa, optional exponent.  Returns `none` where
`float` raises `ValueError` (empty string, stray characters, lone `.`). -/
def pyFloat (s : String) : Option Q :=
  let cs := s.toList
  let neg : Bool := cs.headD ' ' = '-'
  let cs1 := if cs.headD ' ' = '-' || cs.headD ' ' = '+' then cs.tail else cs
  let mant := cs1.takeWhile (fun c => !(c = 'e' || c = 'E'))
  let expPart := cs1.dropWhile (fun c => !(c = 'e' || c = 'E'))
  match expPart with
  | [] => (parseMantissa mant).map (fun m => if neg then m.neg else m)
  | _ :: ex =>
      let eneg : Bool := ex.headD ' ' = '-'
      let ed := if ex.headD ' ' = '-' || ex.headD ' ' = '+' then ex.tail else ex
      if !ed.isEmpty && ed.all Char.isDigit then
        (parseMantissa mant).map (fun m =>
          let m' := if neg then m.neg else m
          if eneg then m'.div ⟨10 ^ digitsVal ed, 1⟩
          else m'.mul ⟨10 ^ digitsVal ed, 1⟩)
      else none

/-- Generic single-character splitter: models `re.split` over a one-character
class, which cuts at every separator occurrence and keeps empty segments. -/
def splitAux (p : Char → Bool) : List Char → List Char → List String
  | [], acc => [String.mk acc.reverse]
  | c :: rest, acc =>
      if p c then String.mk acc.reverse :: splitAux p rest []
      else splitAux p rest (c :: acc)

/-- Models `re.compile("[, ]").split(string_rep)`: the field tokenizer of
`type_parser`.  Adjacent separators yield empty-string tokens. -/
def splitSep (s : String) : List String :=
  splitAux (fun c => c = ',' || c = ' ') s.toList []

/-- Models `line_.split(";")`. -/
def splitSemi (s : String) : List String :=
  splitAux (fun c => c = ';') s.toList []

/-- Models `"||" in line`: two adjacent pipe characters occur somewhere. -/
def hasPipes : List Char → Bool
  | '|' :: '|' :: _ => true
  | _ :: rest => hasPipes rest
  | [] => false

/-- Models `':' in string_rep`. -/
def hasColon (s : String) : Bool := s.toList.contains ':'

/-- Models `str.strip(" |")`. -/
def pyStrip (s : String) : String :=
  let p : Char → Bool := fun c => c = ' ' || c = '|'
  String.mk (((s.toList.dropWhile p).reverse.dropWhile p).reverse)

/-- Index of the first occurrence of a character, `-1` when absent: models
`line.find("#")`. -/
def pyFind (cs : List Char) (c : Char) : Int :=
  match cs with
  | [] => -1
  | d :: rest =>
      if d = c then 0
      else match pyFind rest c with
        | -1 => -1
        | i => i + 1

/-- Models Python slicing `s[a:b]` for `a ≥ 0` and `b` either non-negative or
negative (counted from the end, clamped at 0). -/
def pySlice (s : String) (a : ℕ) (b : Int) : String :=
  let n := s.toList.length
  let stop : ℕ := if b < 0 then ((n : Int) + b).toNat else min b.toNat n
  String.mk ((s.toList.take stop).drop a)

/-- Models `paren.sub("", string_rep)` with `paren = re.compile("[()]")`:
removes every parenthesis. -/
def strip_paren (s : String) : String :=
  String.mk (s.toList.filter (fun c => !(c = '(' || c = ')')))

/-- Models `unit_mapping`: the suffix table for length/angle literals. -/
def unit_mapping (c : Char) : Option AUnit :=
  if c = '\"' then some AUnit.arcsec
  else if c = '\'' then some AUnit.arcmin
  else if c = 'r' then some AUnit.rad
  else if c = 'i' then some AUnit.dimensionless
  else none

/-- Models `angular_length_quantity` (and its aliases `radius`, `width`,
`height`, `angle`): inspect the trailing character; a non-digit trailing
character is looked up in `unit_mapping` (a `KeyError` when absent) and the
prefix is parsed as a float in that unit; otherwise the whole literal is a
float in degrees.  `string_rep[-1]` on the empty string is an `IndexError`. -/
def angular_length_quantity (s : String) : Except Err Quantity :=
  match s.toList.getLast? with
  | none => Except.error Err.indexError
  | some c =>
      if !c.isDigit then
        match unit_mapping c with
        | some un =>
            match pyFloat (String.mk s.toList.dropLast) with
            | some v => Except.ok ⟨v, un⟩
            | none => Except.error Err.valueError
        | none => Except.error Err.keyError
      else
        match pyFloat s with
        | some v => Except.ok ⟨v, AUnit.deg⟩
        | none => Except.error Err.valueError

/-- Models the external capability `astropy.coordinates.Angle(s)` called with
NO unit argument, on the fragment of literals this parser feeds it (plain
decimal or colon-sexagesimal numerals, which carry no unit designator):
astropy raises `u.UnitsError` there, modelled as `none`. -/
def astropy_angle_nounit (_ : String) : Option Quantity := none

/-- Models the external capability `astropy.coordinates.Angle(s, unit=a)` /
`u.Quantity(float(s), a)` value parsing: a colon-sexagesimal literal
`p:q` or `p:q:r` (with optional sign), or a plain decimal literal, valued in
the given unit. -/
def astropy_angle (s : String) (a : AUnit) : Except Err Quantity :=
  if hasColon s then
    let neg : Bool := s.toList.headD ' ' = '-'
    let body := if s.toList.headD ' ' = '-' || s.toList.headD ' ' = '+' then
        String.mk s.toList.tail else s
    let parts := (splitAux (fun c => c = ':') body.toList []).map pyFloat
    match parts with
    | [some x, some y] =>
        let v := x.add (y.div ⟨60, 1⟩)
        Except.ok ⟨if neg then v.neg else v, a⟩
    | [some x, some y, some z] =>
        let v := (x.add (y.div ⟨60, 1⟩)).add (z.div ⟨3600, 1⟩)
        Except.ok ⟨if neg then v.neg else v, a⟩
    | _ => Except.error Err.valueError
  else
    match pyFloat s with
    | some v => Except.ok ⟨v, a⟩
    | none => Except.error Err.valueError

/-- A coordinate-unit entry: either the sentinel string `'hour_or_deg'` or an
astropy unit, as stored in `coordinate_units`. -/
inductive CUnit where
  | hour_or_deg
  | unit (a : AUnit)
  deriving DecidableEq, Repr

/-- Models `coordinate(string_rep, unit)`: try `Angle(string_rep)` (always a
`UnitsError` on the unitless fragment, see `astropy_angle_nounit`), then fall
back on the unit hint: `'hour_or_deg'` parses sexagesimal literals as hours
and plain ones as degrees; a degree-equivalent unit parses an `Angle` in that
unit; otherwise the literal is `float`-parsed into a plain `Quantity`. -/
def coordinate (s : String) (unit : CUnit) : Except Err Value :=
  match astropy_angle_nounit s with
  | some q => Except.ok (Value.angle q)
  | none =>
      match unit with
      | CUnit.hour_or_deg =>
          if hasColon s then (astropy_angle s AUnit.hour).map Value.angle
          else (astropy_angle s AUnit.deg).map Value.angle
      | CUnit.unit a =>
          if a.isEquivDeg then (astropy_angle s a).map Value.angle
          else
            match pyFloat s with
            | some v => Except.ok (Value.quantity ⟨v, a⟩)
            | none => Except.error Err.valueError

/-- A region-type field specification: either a fixed tuple of field parsers
or the shared `itertools.cycle` over them (used by `polygon`). -/
inductive FieldKind where
  | coord
  | angularLength
  deriving DecidableEq, Repr

/-- A value of `language_spec`: a tuple of field parsers, or an
`itertools.cycle` over them.  The cycle is a single module-level iterator
shared by every parse; its position is threaded as an explicit offset. -/
inductive Specification where
  | tuple (l : List FieldKind)
  | cyc (l : List FieldKind)
  deriving DecidableEq, Repr

/-- Models `language_spec`: the region-type specification table.  `radius`,
`width`, `height` and `angle` are all the same function
`angular_length_quantity`, hence a single `FieldKind.angularLength` tag. -/
def language_spec (name : String) : Option Specification :=
  if name = "point" then some (Specification.tuple [FieldKind.coord, FieldKind.coord])
  else if name = "circle" then
    some (Specification.tuple [FieldKind.coord, FieldKind.coord, FieldKind.angularLength])
  else if name = "box" then
    some (Specification.tuple [FieldKind.coord, FieldKind.coord,
      FieldKind.angularLength, FieldKind.angularLength, FieldKind.angularLength])
  else if name = "polygon" then some (Specification.cyc [FieldKind.coord])
  else none

/-- The lowercase ASCII alphabet (`string.ascii_lowercase`). -/
def asciiLower : List Char :=
  ['a', 'b', 'c', 'd', 'e', 'f', 'g', 'h', 'i', 'j', 'k', 'l', 'm',
   'n', 'o', 'p', 'q', 'r', 's', 't', 'u', 'v', 'w', 'x', 'y', 'z']

/-- Models `coordinate_systems`: the fixed names plus `wcsa` .. `wcsz`. -/
def coordinate_systems : List String :=
  ["fk5", "fk4", "icrs", "galactic", "wcs", "physical", "image", "ecliptic"]
    ++ asciiLower.map (fun c => String.mk ['w', 'c', 's', c])

/-- Frame names from astropy's `frame_transform_graph.get_names()` that are
relevant here (the registry contains more, but only names that are also in
`coordinate_systems` can ever be looked up), modelling the external astropy
frame registry. -/
def frame_names : List String :=
  ["fk5", "fk4", "fk4noeterms", "icrs", "galactic", "supergalactic",
   "gcrs", "cirs", "itrs", "hcrs", "altaz", "geocentrictrueecliptic",
   "barycentrictrueecliptic", "heliocentrictrueecliptic", "galactocentric"]

/-- Models `coordsys_name_mapping`: the identity on astropy frame names, with
the explicit `'ecliptic' -> 'geocentrictrueecliptic'` alias from the source. -/
def coordsys_name_mapping (s : String) : Option String :=
  if s = "ecliptic" then some "geocentrictrueecliptic"
  else if s ∈ frame_names then some s else none

/-- Models `coordinate_units`: unit-convention pair for fields 0 and 1. -/
def coordinate_units (s : String) : Option (CUnit × CUnit) :=
  if s = "fk5" || s = "fk4" || s = "icrs" then
    some (CUnit.hour_or_deg, CUnit.unit AUnit.deg)
  else if s = "geocentrictrueecliptic" || s = "galactic" then
    some (CUnit.unit AUnit.deg, CUnit.unit AUnit.deg)
  else if s = "physical" || s = "image" || s = "wcs" then
    some (CUnit.unit AUnit.dimensionless, CUnit.unit AUnit.dimensionless)
  else if s ∈ asciiLower.map (fun c => String.mk ['w', 'c', 's', c]) then
    some (CUnit.unit AUnit.dimensionless, CUnit.unit AUnit.dimensionless)
  else none

/-- Decode one field: `angular_length_quantity` for length/angle fields, and
`coordinate` with the active system's unit convention at `ii % 2` for
coordinate fields (`coordinate_units[coordsys][ii % 2]`, a `KeyError` when
the system is not in the table). -/
def decodeField (tok : String) (p : FieldKind) (cs : String) (ii : ℕ) :
    Except Err Value :=
  match p with
  | FieldKind.angularLength =>
      match angular_length_quantity tok with
      | Except.ok q => Except.ok (Value.quantity q)
      | Except.error e => Except.error e
  | FieldKind.coord =>
      match coordinate_units cs with
      | none => Except.error Err.keyError
      | some units =>
          coordinate tok (if ii % 2 = 0 then units.1 else units.2)

/-- The field-kind stream an `itertools.cycle` yields: `n` elements starting
at iterator position `k`. -/
def cycleTake (l : List FieldKind) (k n : ℕ) : List FieldKind :=
  (List.range n).map (fun i => l.getD ((k + i) % l.length) FieldKind.coord)

/-- The `(token, field-kind)` pairs produced by `zip(splitter.split(...),
specification)`: a tuple specification zips positionally (stopping at the
shorter sequence); the shared cycle continues from its current offset `k`
and never runs out (unless its underlying list is empty). -/
def pairsOf (toks : List String) : Specification → ℕ → List (String × FieldKind)
  | Specification.tuple l, _ => toks.zip l
  | Specification.cyc l, k =>
      if l.length = 0 then [] else toks.zip (cycleTake l k toks.length)

/-- The decoding loop of `type_parser`: decode each `(token, kind)` pair in
order (`ii` is the `enumerate` index), propagating the first exception. -/
def typeParseAux (cs : String) : List (String × FieldKind) → ℕ → Except Err (List Value)
  | [], _ => Except.ok []
  | (tok, p) :: rest, ii =>
      match decodeField tok p cs ii with
      | Except.error e => Except.error e
      | Except.ok v =>
          match typeParseAux cs rest (ii + 1) with
          | Except.error e => Except.error e
          | Except.ok vs => Except.ok (v :: vs)

/-- Models `type_parser(string_rep, specification, coordsys)`; `k` is the
current position of the shared polygon cycle iterator. -/
def type_parse (s : String) (spec : Specification) (cs : String) (k : ℕ) :
    Except Err (List Value) :=
  typeParseAux cs (pairsOf (splitSep s) spec k) 0

/-- How far a `type_parser` call advances the shared cycle iterator: one
`next()` per token for a cycle specification, none for a tuple. -/
def cycleAdvance (spec : Specification) (numToks : ℕ) : ℕ :=
  match spec with
  | Specification.cyc _ => numToks
  | Specification.tuple _ => 0

/-- Result of the regex search `region_type_or_coordsys_re.search(line)` with
pattern `#? *([a-zA-Z0-9]+)`: the first maximal alphanumeric run of the line
together with the end position of the match (`span()[1]`). -/
def findIdentAux : List Char → ℕ → Option (String × ℕ)
  | [], _ => none
  | c :: rest, pos =>
      if c.isAlphanum then
        some (String.mk ((c :: rest).takeWhile Char.isAlphanum),
          pos + ((c :: rest).takeWhile Char.isAlphanum).length)
      else findIdentAux rest (pos + 1)

/-- See `findIdentAux`. -/
def findIdent (line : String) : Option (String × ℕ) :=
  findIdentAux line.toList 0

/-- Models `coords_etc = strip_paren(line[end_of_region_name:hash_or_end].strip(" |"))`:
the field payload handed to the tokenizer.  Note `hash_or_end` is `-1` when
the line has no `#`, so the slice then stops one character short of the end
of the line. -/
def coords_etc_of (line : String) (endIdx : ℕ) : String :=
  strip_paren (pyStrip (pySlice line endIdx (pyFind line.toList '#')))

/-- A classified line, as returned by `line_parser`: a recognized
coordinate-system name, or a region `(region_type, coordlist, composite)`. -/
inductive LineResult where
  | coordsysName (s : String)
  | region (rt : String) (vals : List Value) (composite : Bool)
  deriving DecidableEq, Repr

/-- Consecutive disjoint pairs of a list: models
`zip(parsed[:-1:2], parsed[1::2])`. -/
def pairUp : List Value → List (Value × Value)
  | a :: b :: rest => (a, b) :: pairUp rest
  | _ => []

/-- The region branch of `line_parser` once the type, its specification and
an active coordinate system are known: compute the continuation flag and the
payload, decode the fields, and when the system maps to an astropy frame,
collapse the leading `Angle` pairs into one `SkyCoord` value.  Returns the
parsed line together with the advanced cycle-iterator position. -/
def regionParse (line rt : String) (endIdx : ℕ) (spec : Specification)
    (cs : String) (off : ℕ) : Except Err (Option LineResult × ℕ) :=
  let composite := hasPipes line.toList
  let coordsEtc := coords_etc_of line endIdx
  let off' := off + cycleAdvance spec (splitSep coordsEtc).length
  match coordsys_name_mapping cs with
  | some frame =>
      match type_parse coordsEtc spec frame off with
      | Except.error e => Except.error e
      | Except.ok parsed =>
          let pairs := (pairUp parsed).filter (fun pr => pr.1.isAngle)
          let coords := Value.skycoord (pairs.map (fun pr => (pr.1.q, pr.2.q))) frame
          Except.ok (some (LineResult.region rt
            (coords :: parsed.drop (pairs.length * 2)) composite), off')
  | none =>
      match type_parse coordsEtc spec cs off with
      | Except.error e => Except.error e
      | Except.ok parsed =>
          Except.ok (some (LineResult.region rt parsed composite), off')

/-- Models `line_parser(line, coordsys)`: classify one (sub-)line.  `none`
for ignored lines, a coordinate-system name, or a parsed region; raises
`ValueError` when a region is found with no active coordinate system. -/
def line_parse (line : String) (coordsys : Option String) (off : ℕ) :
    Except Err (Option LineResult × ℕ) :=
  match findIdent line with
  | none => Except.ok (none, off)
  | some (rt, endIdx) =>
      if rt ∈ coordinate_systems then
        Except.ok (some (LineResult.coordsysName rt), off)
      else
        match language_spec rt with
        | none => Except.ok (none, off)
        | some spec =>
            match coordsys with
            | none => Except.error Err.unboundCoordSys
            | some cs => regionParse line rt endIdx spec cs off

/-- One output entry of `ds9_parser`: a single `(region_type, coordlist)`
tuple or a sealed composite chain (a Python list of such tuples). -/
inductive Output where
  | single (rt : String) (vals : List Value)
  | composite (chain : List (String × List Value))
  deriving DecidableEq, Repr

/-- The local state of `ds9_parser`'s loop (`coordsys`, `regions`,
`composite_region`) plus the position of the module-level polygon cycle
iterator, which outlives any single call. -/
structure PState where
  coordsys : Option String
  regions : List Output
  composite : Option (List (String × List Value))
  polyOff : ℕ
  deriving DecidableEq, Repr

/-- The state update of `ds9_parser`'s inner loop for one classified
(sub-)line: thread the coordinate system, accumulate or seal composite
chains, append finished regions. -/
def applyResult (st : PState) (res : Option LineResult) (off2 : ℕ) : PState :=
  match res with
  | none => ⟨st.coordsys, st.regions, st.composite, off2⟩
  | some (LineResult.coordsysName s) => ⟨some s, st.regions, st.composite, off2⟩
  | some (LineResult.region rt vals comp) =>
      if comp then
        match st.composite with
        | none => ⟨st.coordsys, st.regions, some [(rt, vals)], off2⟩
        | some ch => ⟨st.coordsys, st.regions, some (ch ++ [(rt, vals)]), off2⟩
      else
        match st.composite with
        | some ch =>
            ⟨st.coordsys, st.regions ++ [Output.composite (ch ++ [(rt, vals)])],
              none, off2⟩
        | none =>
            ⟨st.coordsys, st.regions ++ [Output.single rt vals], st.composite, off2⟩

/-- The body of `ds9_parser`'s inner loop for one (sub-)line. -/
def processSub (st : PState) (line : String) : Except Err PState :=
  match line_parse line st.coordsys st.polyOff with
  | Except.error e => Except.error e
  | Except.ok (res, off2) => Except.ok (applyResult st res off2)

/-- Fold `processSub` over the flattened (sub-)line sequence. -/
def processLines (st : PState) : List String → Except Err PState
  | [] => Except.ok st
  | l :: rest =>
      match processSub st l with
      | Except.error e => Except.error e
      | Except.ok st' => processLines st' rest

/-- The flattened statement sequence of a file: each raw line split on `;`. -/
def subLines (lines : List String) : List String :=
  (lines.map splitSemi).flatten

/-- Models `ds9_parser` running with the shared polygon cycle iterator at
position `off`; returns the output list and the final iterator position. -/
def ds9ParseFrom (off : ℕ) (lines : List String) : Except Err (List Output × ℕ) :=
  match processLines ⟨none, [], none, off⟩ (subLines lines) with
  | Except.error e => Except.error e
  | Except.ok st => Except.ok (st.regions, st.polyOff)

/-- Models `ds9_parser(filename)`: parse a whole file, given as the list of
its raw lines (as Python file iteration yields them, trailing newlines
included), in a fresh process. -/
def ds9_parse (lines : List String) : Except Err (List Output) :=
  match ds9ParseFrom 0 lines with
  | Except.error e => Except.error e
  | Except.ok (out, _) => Except.ok out

/-- Length/angle decoding as claim C5 describes it, for comparison with the
implementation (this definition follows the specification's words, not the
source): a trailing known unit suffix puts the prefix in that unit, otherwise
the whole literal is a number of degrees, and decoding fails exactly when the
trailing character is not a recognized suffix and the literal is not purely
numeric. -/
def angular_length_quantity_claimed (s : String) : Except Err Quantity :=
  match s.toList.getLast? with
  | none => Except.error Err.valueError
  | some c =>
      match unit_mapping c with
      | some un =>
          match pyFloat (String.mk s.toList.dropLast) with
          | some v => Except.ok ⟨v, un⟩
          | none => Except.error Err.valueError
      | none =>
          match pyFloat s with
          | some v => Except.ok ⟨v, AUnit.deg⟩
          | none => Except.error Err.valueError

/-- A (sub-)line whose first identifier is a recognized region type (and not
a coordinate-system name): exactly the lines on which `line_parser` takes the
region branch. -/
def classifiesRegion (line : String) : Bool :=
  match findIdent line with
  | some (rt, _) => if rt ∈ coordinate_systems then false else (language_spec rt).isSome
  | none => false

/-- A (sub-)line whose first identifier is a recognized coordinate-system
name: exactly the lines on which `line_parser` returns the name. -/
def classifiesCoordsys (line : String) : Bool :=
  match findIdent line with
  | some (rt, _) => if rt ∈ coordinate_systems then true else false
  | none => false

/-- Whether an exceptional computation succeeded. -/
def isOkE (r : Except Err Value) : Bool :=
  match r with
  | Except.ok _ => true
  | Except.error _ => false

/-- Invariant threaded through the driver: every sealed composite in the
output has at least two members, and an open chain is never empty. -/
def stInv (st : PState) : Prop :=
  (∀ g, Output.composite g ∈ st.regions → 2 ≤ g.length)
  ∧ (∀ ch, st.composite = some ch → ch ≠ [])

/-- The composite chain produced by the two-line continuation example, used
to witness C8. -/
def c8chain : List (String × List Value) :=
  [("circle",
    [Value.quantity ⟨⟨1, 1⟩, AUnit.dimensionless⟩,
     Value.quantity ⟨⟨2, 1⟩, AUnit.dimensionless⟩,
     Value.quantity ⟨⟨3, 1⟩, AUnit.deg⟩]),
   ("box",
    [Value.quantity ⟨⟨4, 1⟩, AUnit.dimensionless⟩,
     Value.quantity ⟨⟨5, 1⟩, AUnit.dimensionless⟩,
     Value.quantity ⟨⟨6, 1⟩, AUnit.deg⟩,
     Value.quantity ⟨⟨7, 1⟩, AUnit.deg⟩,
     Value.quantity ⟨⟨8, 1⟩, AUnit.deg⟩])]

/-- The fields of the parser state visible in the output: the active
coordinate system, the emitted regions, and the open composite chain (the
shared cycle iterator position is excluded). -/
def vis (st : PState) :
    Option String × List Output × Option (List (String × List Value)) :=
  (st.coordsys, st.regions, st.composite)

/-- C1: the specification's end-to-end example `fk5` / `circle(10.0, 20.0, 5")`
does NOT parse to one circle region: the tokenizer splits at every comma AND
every space, so the `", "` separators produce empty tokens that are paired
with field parsers (shifting the radius parser onto `"20.0"` and failing on
the empty literal), and the whole parse raises.  The claimed decoding (fields
0/1 as degree angles 10 and 20 collapsed into one fk5-frame position, field 2
as 5 arcseconds) is exactly what the code produces for the same input
without spaces after the commas. -/
theorem claim_C1_code_eval :
    ds9_parse ["fk5\n", "circle(10.0, 20.0, 5\")\n"] = Except.error Err.valueError
    ∧ ds9_parse ["fk5\n", "circle(10.0,20.0,5\")\n"] =
        Except.ok [Output.single "circle"
          [Value.skycoord [(⟨⟨10, 1⟩, AUnit.deg⟩, ⟨⟨20, 1⟩, AUnit.deg⟩)] "fk5",
           Value.quantity ⟨⟨5, 1⟩, AUnit.arcsec⟩]] := by
  exact ⟨by decide!, by decide!⟩

/-- C2 (counterexample): a single line `circle(1,2,3) || box(4,5,6,7,8)` after
a coordinate-system declaration yields an EMPTY output list, not one composite
group with both regions: the whole line is classified as a single circle
region line (the `box` part is discarded by the zip truncation), the
continuation marker opens a composite chain, and the chain is dropped at end
of input. -/
theorem claim_C2_counterexample :
    ds9_parse ["image\n", "circle(1,2,3) || box(4,5,6,7,8)\n"] = Except.ok [] := by
  decide!

/-- C2 (amended): with the two regions on separate lines — `circle(1,2,3) ||`
then `box(4,5,6,7,8)` — the parse yields exactly one composite group
containing the circle region and the box region, in that order. -/
theorem claim_C2_amended :
    ds9_parse ["image\n", "circle(1,2,3) ||\n", "box(4,5,6,7,8)\n"] =
      Except.ok [Output.composite
        [("circle",
          [Value.quantity ⟨⟨1, 1⟩, AUnit.dimensionless⟩,
           Value.quantity ⟨⟨2, 1⟩, AUnit.dimensionless⟩,
           Value.quantity ⟨⟨3, 1⟩, AUnit.deg⟩]),
         ("box",
          [Value.quantity ⟨⟨4, 1⟩, AUnit.dimensionless⟩,
           Value.quantity ⟨⟨5, 1⟩, AUnit.dimensionless⟩,
           Value.quantity ⟨⟨6, 1⟩, AUnit.deg⟩,
           Value.quantity ⟨⟨7, 1⟩, AUnit.deg⟩,
           Value.quantity ⟨⟨8, 1⟩, AUnit.deg⟩])]] := by
  decide!

/-- C4: on a region line with no `#`, the payload handed to the tokenizer is
NOT the substring to the end of the line: `hash_or_end` is `-1` and the slice
`line[end_of_region_name:-1]` stops one character short, silently dropping
the line's final character.  For the line `circle 1,2,3` the payload is
`1,2,` (the final `3` is lost), the tokenizer then produces a trailing empty
token, and the whole-file parse of `image` / `circle 1,2,3;` aborts with the
IndexError from decoding that empty token. -/
theorem claim_C4_code_eval :
    findIdent "circle 1,2,3" = some ("circle", 6)
    ∧ coords_etc_of "circle 1,2,3" 6 = "1,2,"
    ∧ splitSep "1,2," = ["1", "2", ""]
    ∧ ds9_parse ["image\n", "circle 1,2,3;\n"] = Except.error Err.indexError := by
  exact ⟨by decide!, by decide!, by decide!, by decide!⟩

/-- C5 (counterexample): for the literal `5.` the trailing character `.` is
not a recognized unit suffix and the literal IS purely numeric
(`float("5.") = 5.0`), so the claim says it decodes as 5 degrees with no
error — but the code branches on `string_rep[-1] not in string.digits` and
hits `unit_mapping['.']`, a `KeyError`. -/
theorem claim_C5_counterexample :
    angular_length_quantity "5." = Except.error Err.keyError
    ∧ angular_length_quantity_claimed "5." = Except.ok ⟨⟨5, 1⟩, AUnit.deg⟩
    ∧ angular_length_quantity "5." ≠ angular_length_quantity_claimed "5." := by
  exact ⟨by decide!, by decide!, by decide!⟩

/-- With no active coordinate system, a region line makes `line_parser`
raise the unbound-coordinate-system `ValueError` before any decoding. -/
theorem line_parse_region_unbound (line : String)
    (h : classifiesRegion line = true) (off : ℕ) :
    line_parse line none off = Except.error Err.unboundCoordSys := by
  unfold classifiesRegion at h
  unfold line_parse
  cases hfi : findIdent line with
  | none => rw [hfi] at h; cases h
  | some pr =>
      obtain ⟨rt, endIdx⟩ := pr
      rw [hfi] at h
      by_cases hmem : rt ∈ coordinate_systems
      · simp [hmem] at h
      · simp only [if_neg hmem] at h ⊢
        cases hs : language_spec rt with
        | none => rw [hs] at h; cases h
        | some spec => rfl

/-- A line that is neither a region line nor a coordinate-system declaration
is ignored by `line_parser` (no error, no result, no state change). -/
theorem line_parse_skip (line : String) (hr : classifiesRegion line = false)
    (hc : classifiesCoordsys line = false) (coordsys : Option String) (off : ℕ) :
    line_parse line coordsys off = Except.ok (none, off) := by
  unfold classifiesRegion at hr
  unfold classifiesCoordsys at hc
  unfold line_parse
  cases hfi : findIdent line with
  | none => rfl
  | some pr =>
      obtain ⟨rt, endIdx⟩ := pr
      rw [hfi] at hr hc
      by_cases hmem : rt ∈ coordinate_systems
      · simp [hmem] at hc
      · simp only [if_neg hmem] at hr ⊢
        cases hs : language_spec rt with
        | none => rfl
        | some spec => rw [hs] at hr; simp at hr

/-- If some (sub-)line classifies as a region line and no earlier (sub-)line
declares a coordinate system, the fold aborts with the
unbound-coordinate-system error as soon as it reaches that line. -/
theorem processLines_unbound :
    ∀ (subs : List String) (st : PState), st.coordsys = none →
    ∀ (i : ℕ), classifiesRegion (subs.getD i "") = true →
    (∀ j, j < i → classifiesCoordsys (subs.getD j "") = false) →
    processLines st subs = Except.error Err.unboundCoordSys := by
  intro subs
  induction subs with
  | nil =>
      intro st hcs i hreg hprev
      rw [List.getD_nil] at hreg
      exact absurd hreg (by decide)
  | cons l rest ih =>
      intro st hcs i hreg hprev
      cases hR : classifiesRegion l with
      | true =>
          have hlp := line_parse_region_unbound l hR st.polyOff
          unfold processLines processSub
          rw [hcs, hlp]
      | false =>
          cases i with
          | zero =>
              rw [List.getD_cons_zero] at hreg
              rw [hreg] at hR
              cases hR
          | succ n =>
              have hc0 : classifiesCoordsys l = false := by
                have h0 := hprev 0 (Nat.succ_pos n)
                rwa [List.getD_cons_zero] at h0
              have hlp := line_parse_skip l hR hc0 st.coordsys st.polyOff
              unfold processLines processSub
              rw [hlp]
              exact ih ⟨st.coordsys, st.regions, st.composite, st.polyOff⟩ hcs n
                (by rwa [List.getD_cons_succ] at hreg)
                (fun j hj => by
                  have := hprev (j + 1) (Nat.succ_lt_succ hj)
                  rwa [List.getD_cons_succ] at this)

/-- C3: for every input file, if some statement (a raw line split on `;`)
classifies as a region line and no earlier statement declares a coordinate
system, the whole-file parse aborts with the unbound-coordinate-system error
and produces no output list. -/
theorem claim_C3 : ∀ (lines : List String) (i : ℕ),
    classifiesRegion ((subLines lines).getD i "") = true →
    (∀ j, j < i → classifiesCoordsys ((subLines lines).getD j "") = false) →
    ds9_parse lines = Except.error Err.unboundCoordSys := by
  intro lines i hreg hprev
  unfold ds9_parse ds9ParseFrom
  rw [processLines_unbound (subLines lines) ⟨none, [], none, 0⟩ rfl i hreg hprev]

/-- C3 witness: the one-line file `circle(1,2,3)` has a region line first and
no coordinate-system declaration, and indeed fails with the unbound error. -/
theorem claim_C3_witness :
    ds9_parse ["circle(1,2,3)\n"] = Except.error Err.unboundCoordSys :=
  claim_C3 ["circle(1,2,3)\n"] 0 (by decide!)
    (fun j hj => absurd hj (Nat.not_lt_zero j))

/-- A recognized unit suffix is never a digit. -/
theorem unit_mapping_not_digit (c : Char) (un : AUnit)
    (h : unit_mapping c = some un) : c.isDigit = false := by
  unfold unit_mapping at h
  split_ifs at h with h1 h2 h3 h4
  · subst h1; rfl
  · subst h2; rfl
  · subst h3; rfl
  · subst h4; rfl

/-- Reduction of `angular_length_quantity` when the trailing character is a
digit: the whole literal is float-parsed in degrees. -/
theorem alq_digit (s : String) (c : Char) (h : s.toList.getLast? = some c)
    (hd : c.isDigit = true) :
    angular_length_quantity s =
      (match pyFloat s with
       | some v => Except.ok ⟨v, AUnit.deg⟩
       | none => Except.error Err.valueError) := by
  unfold angular_length_quantity
  cases hlast : s.toList.getLast? with
  | none => rw [hlast] at h; cases h
  | some c2 =>
      rw [hlast] at h
      injection h with hc
      subst hc
      simp [hd]

/-- Reduction of `angular_length_quantity` when the trailing character is not
a digit: it is looked up as a unit suffix (`KeyError` when unknown) and the
prefix is float-parsed. -/
theorem alq_nondigit (s : String) (c : Char) (h : s.toList.getLast? = some c)
    (hd : c.isDigit = false) :
    angular_length_quantity s =
      (match unit_mapping c with
       | some un =>
           (match pyFloat (String.mk s.toList.dropLast) with
            | some v => Except.ok ⟨v, un⟩
            | none => Except.error Err.valueError)
       | none => Except.error Err.keyError) := by
  unfold angular_length_quantity
  cases hlast : s.toList.getLast? with
  | none => rw [hlast] at h; cases h
  | some c2 =>
      rw [hlast] at h
      injection h with hc
      subst hc
      simp [hd]

/-- C5 (amended): for a non-empty length/angle literal the decode branches on
whether the TRAILING CHARACTER IS A DIGIT, not on suffix membership: a
trailing known unit suffix puts the float-parsed prefix in that unit, a
trailing digit puts the float-parsed whole literal in degrees, and the
unknown-suffix `KeyError` is raised exactly when the trailing character is a
non-digit that is not a recognized suffix — regardless of whether the rest is
numeric.  (Float failures surface separately as `ValueError`.) -/
theorem claim_C5_amended : ∀ (s : String) (c : Char), s.toList.getLast? = some c →
    (angular_length_quantity s = Except.error Err.keyError ↔
      (c.isDigit = false ∧ unit_mapping c = none))
    ∧ (∀ un, unit_mapping c = some un →
        angular_length_quantity s =
          (match pyFloat (String.mk s.toList.dropLast) with
           | some v => Except.ok ⟨v, un⟩
           | none => Except.error Err.valueError))
    ∧ (c.isDigit = true →
        angular_length_quantity s =
          (match pyFloat s with
           | some v => Except.ok ⟨v, AUnit.deg⟩
           | none => Except.error Err.valueError)) := by
  intro s c h
  rcases Bool.eq_false_or_eq_true c.isDigit with hd | hd
  · have hred := alq_digit s c h hd
    refine ⟨?_, ?_, fun _ => hred⟩
    · rw [hred]
      constructor
      · intro hcontra
        exfalso
        cases hpf : pyFloat s <;> rw [hpf] at hcontra <;> simp at hcontra
      · rintro ⟨hfd, -⟩
        rw [hd] at hfd
        cases hfd
    · intro un hun
      rw [unit_mapping_not_digit c un hun] at hd
      cases hd
  · have hred := alq_nondigit s c h hd
    refine ⟨?_, ?_, ?_⟩
    · rw [hred]
      cases hum : unit_mapping c with
      | some un =>
          constructor
          · intro hcontra
            exfalso
            cases hpf : pyFloat (String.mk s.toList.dropLast) <;>
              rw [hpf] at hcontra <;> simp at hcontra
          · rintro ⟨-, hnone⟩
            cases hnone
      | none =>
          exact ⟨fun _ => ⟨hd, rfl⟩, fun _ => rfl⟩
    · intro un hun
      rw [hred, hun]
    · intro hdd
      rw [hdd] at hd
      cases hd

/-- C5 amended witness: `7"` decodes through the recognized-suffix branch as
the float-parsed prefix `7` in arcseconds. -/
theorem claim_C5_amended_witness :
    unit_mapping '\"' = some AUnit.arcsec
    ∧ angular_length_quantity "7\"" =
        (match pyFloat (String.mk "7\"".toList.dropLast) with
         | some v => Except.ok ⟨v, AUnit.arcsec⟩
         | none => Except.error Err.valueError) :=
  ⟨by decide, (claim_C5_amended "7\"" '\"' (by decide)).2.1 AUnit.arcsec (by decide)⟩

/-- Splitting a character list that contains two adjacent separators always
produces an empty segment, whatever the accumulator state. -/
theorem splitAux_adjacent (p : Char → Bool) :
    ∀ (pre post : List Char) (acc : List Char) (c d : Char),
    p c = true → p d = true →
    "" ∈ splitAux p (pre ++ c :: d :: post) acc := by
  intro pre
  induction pre with
  | nil =>
      intro post acc c d hc hd
      simp only [List.nil_append, splitAux, hc, hd, if_true]
      exact List.mem_cons_of_mem _ (List.mem_cons_self _ _)
  | cons x xs ih =>
      intro post acc c d hc hd
      simp only [List.cons_append, splitAux]
      by_cases hx : p x = true
      · rw [if_pos hx]
        exact List.mem_cons_of_mem _ (ih post [] c d hc hd)
      · rw [if_neg hx]
        exact ih post (x :: acc) c d hc hd

/-- A non-empty character list has a last element. -/
theorem getLast?_some : ∀ (l : List Char), l ≠ [] → ∃ c, l.getLast? = some c
  | [], h => absurd rfl h
  | [a], _ => ⟨a, rfl⟩
  | a :: b :: rest, _ => by
      rw [List.getLast?_cons_cons]
      exact getLast?_some (b :: rest) (by simp)

/-- On a non-empty literal, `angular_length_quantity` never raises the
indexing error (it may still fail with `KeyError` or `ValueError`). -/
theorem alq_nonempty_no_index (s : String) (hs : s ≠ "") :
    angular_length_quantity s ≠ Except.error Err.indexError := by
  have hne : s.toList ≠ [] := by
    intro hnil
    apply hs
    cases s with
    | mk data =>
        have hdata : data = [] := hnil
        rw [hdata]
  obtain ⟨c, hc⟩ := getLast?_some s.toList hne
  rcases Bool.eq_false_or_eq_true c.isDigit with hd | hd
  · rw [alq_digit s c hc hd]
    cases hpf : pyFloat s <;> simp
  · rw [alq_nondigit s c hc hd]
    cases hum : unit_mapping c with
    | some un => cases hpf : pyFloat (String.mk s.toList.dropLast) <;> simp
    | none => simp

/-- C10: the field tokenizer emits an empty-string token whenever two
separator characters (comma or space) are adjacent in the payload; decoding
the empty token as a length/angle field raises the unhandled `IndexError`
from `string_rep[-1]`; and that indexing error occurs only on the empty
literal. -/
theorem claim_C10 :
    (∀ (pre post : List Char) (c d : Char),
        (c = ',' ∨ c = ' ') → (d = ',' ∨ d = ' ') →
        "" ∈ splitSep (String.mk (pre ++ c :: d :: post)))
    ∧ angular_length_quantity "" = Except.error Err.indexError
    ∧ (∀ s : String, s ≠ "" →
        angular_length_quantity s ≠ Except.error Err.indexError) := by
  refine ⟨?_, by decide, alq_nonempty_no_index⟩
  intro pre post c d hc hd
  have hc' : (c = ',' || c = ' ') = true := by rcases hc with rfl | rfl <;> decide
  have hd' : (d = ',' || d = ' ') = true := by rcases hd with rfl | rfl <;> decide
  exact splitAux_adjacent _ pre post [] c d hc' hd'

/-- C10 witness: the payload `1, 2` (comma followed by space) tokenizes with
an empty middle token, and the non-empty literal `5` does not raise the
indexing error. -/
theorem claim_C10_witness :
    "" ∈ splitSep (String.mk (['1'] ++ ',' :: ' ' :: ['2']))
    ∧ angular_length_quantity "5" ≠ Except.error Err.indexError :=
  ⟨claim_C10.1 ['1'] ['2'] ',' ' ' (Or.inl rfl) (Or.inr rfl),
   claim_C10.2.2 "5" (by decide)⟩

/-- On success, `astropy_angle` returns a quantity in the requested unit. -/
theorem astropy_angle_unit (s : String) (a : AUnit) (q : Quantity)
    (h : astropy_angle s a = Except.ok q) : q.unit = a := by
  unfold astropy_angle at h
  split_ifs at h <;> (try dsimp only at h) <;> split at h <;>
    first
      | (injection h with h1; rw [← h1])
      | cases h

/-- Inversion for `Except.map Value.angle`. -/
theorem except_map_angle_ok (r : Except Err Quantity) (q : Quantity)
    (h : r.map Value.angle = Except.ok (Value.angle q)) : r = Except.ok q := by
  cases r with
  | error e => cases h
  | ok q2 =>
      simp only [Except.map] at h
      injection h with h1
      injection h1 with h2
      rw [h2]

/-- C7: under `fk5`, `fk4` and `icrs` the first convention slot is the
`hour_or_deg` sentinel, and a coordinate field at an even position that
decodes to an angle is hour-valued exactly when the literal contains the
sexagesimal separator `:`, degree-valued otherwise. -/
theorem claim_C7 : ∀ (cs : String), (cs = "fk5" ∨ cs = "fk4" ∨ cs = "icrs") →
    (coordinate_units cs).map Prod.fst = some CUnit.hour_or_deg
    ∧ ∀ (i : ℕ), i % 2 = 0 → ∀ (s : String) (q : Quantity),
        decodeField s FieldKind.coord cs i = Except.ok (Value.angle q) →
        ((hasColon s = true → q.unit = AUnit.hour)
          ∧ (hasColon s = false → q.unit = AUnit.deg)) := by
  intro cs hcs
  have hcu : coordinate_units cs = some (CUnit.hour_or_deg, CUnit.unit AUnit.deg) := by
    rcases hcs with rfl | rfl | rfl <;> rfl
  refine ⟨by rw [hcu]; rfl, ?_⟩
  intro i hi s q hdec
  unfold decodeField at hdec
  dsimp only at hdec
  rw [hcu] at hdec
  dsimp only at hdec
  have hif : (if i % 2 = 0 then CUnit.hour_or_deg else CUnit.unit AUnit.deg) =
      CUnit.hour_or_deg := if_pos hi
  rw [hif] at hdec
  unfold coordinate at hdec
  simp only [astropy_angle_nounit] at hdec
  split_ifs at hdec with hcol
  · have hu := astropy_angle_unit s AUnit.hour q (except_map_angle_ok _ q hdec)
    refine ⟨fun _ => hu, fun hfalse => ?_⟩
    rw [hcol] at hfalse
    exact Bool.noConfusion hfalse
  · have hu := astropy_angle_unit s AUnit.deg q (except_map_angle_ok _ q hdec)
    exact ⟨fun htrue => absurd htrue hcol, fun _ => hu⟩

/-- C7 witness: under `fk5`, field 0 resolves `12:30:00` to 12.5 hours and
`12.5` to 12.5 degrees. -/
theorem claim_C7_witness :
    decodeField "12:30:00" FieldKind.coord "fk5" 0 =
      Except.ok (Value.angle ⟨⟨25, 2⟩, AUnit.hour⟩)
    ∧ (Quantity.mk ⟨25, 2⟩ AUnit.hour).unit = AUnit.hour
    ∧ decodeField "12.5" FieldKind.coord "fk5" 0 =
      Except.ok (Value.angle ⟨⟨25, 2⟩, AUnit.deg⟩)
    ∧ (Quantity.mk ⟨25, 2⟩ AUnit.deg).unit = AUnit.deg :=
  ⟨by decide!,
   ((claim_C7 "fk5" (Or.inl rfl)).2 0 rfl "12:30:00"
      ⟨⟨25, 2⟩, AUnit.hour⟩ (by decide!)).1 (by decide!),
   by decide!,
   ((claim_C7 "fk5" (Or.inl rfl)).2 0 rfl "12.5"
      ⟨⟨25, 2⟩, AUnit.deg⟩ (by decide!)).2 (by decide!)⟩

/-- If every paired decode succeeds, the decoding loop succeeds and returns
exactly one value per pair. -/
theorem typeParseAux_ok (cs : String) :
    ∀ (P : List (String × FieldKind)) (start : ℕ),
    (∀ i, i < P.length →
      isOkE (decodeField (P.getD i ("", FieldKind.coord)).1
        (P.getD i ("", FieldKind.coord)).2 cs (start + i)) = true) →
    ∃ r, typeParseAux cs P start = Except.ok r ∧ r.length = P.length := by
  intro P
  induction P with
  | nil => intro start _; exact ⟨[], rfl, rfl⟩
  | cons pr rest ih =>
      intro start h
      obtain ⟨tok, p⟩ := pr
      have h0 := h 0 (Nat.succ_pos _)
      simp only [List.getD_cons_zero, Nat.add_zero] at h0
      cases hdec : decodeField tok p cs start with
      | error e => rw [hdec] at h0; cases h0
      | ok v =>
          obtain ⟨r, hr, hlen⟩ := ih (start + 1) (fun i hi => by
            have hsucc := h (i + 1) (Nat.succ_lt_succ hi)
            have harith : start + (i + 1) = start + 1 + i := by omega
            simpa [List.getD_cons_succ, harith] using hsucc)
          refine ⟨v :: r, ?_, by simp [hlen]⟩
          unfold typeParseAux
          rw [hdec, hr]

/-- Any error of the decoding loop is the error of one of the paired decodes
(never a length mismatch). -/
theorem typeParseAux_error (cs : String) :
    ∀ (P : List (String × FieldKind)) (start : ℕ) (e : Err),
    typeParseAux cs P start = Except.error e →
    ∃ i, i < P.length ∧
      decodeField (P.getD i ("", FieldKind.coord)).1
        (P.getD i ("", FieldKind.coord)).2 cs (start + i) = Except.error e := by
  intro P
  induction P with
  | nil => intro start e h; cases h
  | cons pr rest ih =>
      intro start e h
      obtain ⟨tok, p⟩ := pr
      unfold typeParseAux at h
      cases hdec : decodeField tok p cs start with
      | error e2 =>
          rw [hdec] at h
          injection h with he
          exact ⟨0, Nat.succ_pos _,
            by simp only [List.getD_cons_zero, Nat.add_zero]; rw [hdec, he]⟩
      | ok v =>
          rw [hdec] at h
          cases hrest : typeParseAux cs rest (start + 1) with
          | error e3 =>
              rw [hrest] at h
              injection h with he
              obtain ⟨i, hi, hd⟩ := ih (start + 1) e3 hrest
              refine ⟨i + 1, Nat.succ_lt_succ hi, ?_⟩
              have harith : start + (i + 1) = start + 1 + i := by omega
              rw [List.getD_cons_succ, harith, hd, he]
          | ok vs => rw [hrest] at h; cases h

/-- The cycle stream has exactly the requested length. -/
theorem cycleTake_length (l : List FieldKind) (k n : ℕ) :
    (cycleTake l k n).length = n := by
  simp [cycleTake]

/-- A tuple specification zips to `min` of the two lengths. -/
theorem pairsOf_tuple_length (toks : List String) (l : List FieldKind) (k : ℕ) :
    (pairsOf toks (Specification.tuple l) k).length = min toks.length l.length := by
  simp [pairsOf]

/-- A non-empty cycle specification zips to one pair per token. -/
theorem pairsOf_cyc_length (toks : List String) (l : List FieldKind) (k : ℕ)
    (hl : l ≠ []) :
    (pairsOf toks (Specification.cyc l) k).length = toks.length := by
  simp only [pairsOf]
  rw [if_neg (by simpa using hl)]
  rw [List.length_zip, cycleTake_length, Nat.min_self]

/-- C6: for every payload, specification and coordinate system, decoding
pairs tokens with field-kinds positionally and stops at whichever sequence
runs out first; a token/field-kind count mismatch never raises an error —
when every paired decode succeeds the whole decode succeeds with exactly one
value per pair, and any error is the error of some paired decode.  A tuple
specification pairs `min` of the two counts; a (non-empty) cycle
specification pairs every token. -/
theorem claim_C6 : ∀ (s : String) (spec : Specification) (cs : String) (k : ℕ),
    ((∀ i, i < (pairsOf (splitSep s) spec k).length →
        isOkE (decodeField ((pairsOf (splitSep s) spec k).getD i ("", FieldKind.coord)).1
          ((pairsOf (splitSep s) spec k).getD i ("", FieldKind.coord)).2 cs i) = true) →
      ∃ r, type_parse s spec cs k = Except.ok r ∧
        r.length = (pairsOf (splitSep s) spec k).length)
    ∧ (∀ e, type_parse s spec cs k = Except.error e →
        ∃ i, i < (pairsOf (splitSep s) spec k).length ∧
          decodeField ((pairsOf (splitSep s) spec k).getD i ("", FieldKind.coord)).1
            ((pairsOf (splitSep s) spec k).getD i ("", FieldKind.coord)).2 cs i
            = Except.error e)
    ∧ (∀ l, spec = Specification.tuple l →
        (pairsOf (splitSep s) spec k).length = min (splitSep s).length l.length)
    ∧ (∀ l, spec = Specification.cyc l → l ≠ [] →
        (pairsOf (splitSep s) spec k).length = (splitSep s).length) := by
  intro s spec cs k
  refine ⟨?_, ?_, ?_, ?_⟩
  · intro h
    have hok := typeParseAux_ok cs (pairsOf (splitSep s) spec k) 0
      (fun i hi => by simpa using h i hi)
    simpa [type_parse] using hok
  · intro e he
    have herr := typeParseAux_error cs (pairsOf (splitSep s) spec k) 0 e
      (by simpa [type_parse] using he)
    simpa using herr
  · rintro l rfl
    exact pairsOf_tuple_length _ _ _
  · rintro l rfl hl
    exact pairsOf_cyc_length _ _ _ hl

/-- C6 witness: the five-token payload `1,2,3,4,5` against the three-field
circle specification decodes with no error into exactly three values (the
two extra tokens are silently unpaired). -/
theorem claim_C6_witness :
    ∃ r, type_parse "1,2,3,4,5"
        (Specification.tuple [FieldKind.coord, FieldKind.coord, FieldKind.angularLength])
        "image" 0 = Except.ok r ∧
      r.length = (pairsOf (splitSep "1,2,3,4,5")
        (Specification.tuple [FieldKind.coord, FieldKind.coord, FieldKind.angularLength])
        0).length :=
  (claim_C6 "1,2,3,4,5"
    (Specification.tuple [FieldKind.coord, FieldKind.coord, FieldKind.angularLength])
    "image" 0).1 (by decide!)

/-- The state update preserves the invariant: a chain is born with one
member and sealed with at least two. -/
theorem applyResult_inv (st : PState) (res : Option LineResult) (off2 : ℕ)
    (h : stInv st) : stInv (applyResult st res off2) := by
  cases res with
  | none => exact ⟨h.1, h.2⟩
  | some lr =>
      cases lr with
      | coordsysName sName => exact ⟨h.1, h.2⟩
      | region rt vals comp =>
          unfold applyResult
          cases comp with
          | true =>
              dsimp only
              rw [if_pos rfl]
              cases hcomp : st.composite with
              | none =>
                  exact ⟨h.1, fun ch hch => by
                    injection hch with hch2
                    rw [← hch2]
                    simp⟩
              | some ch =>
                  exact ⟨h.1, fun ch2 hch => by
                    injection hch with hch2
                    rw [← hch2]
                    simp⟩
          | false =>
              dsimp only
              rw [if_neg (by simp)]
              cases hcomp : st.composite with
              | some ch =>
                  refine ⟨?_, fun ch2 hch => by cases hch⟩
                  intro g hg
                  rcases List.mem_append.mp hg with hg1 | hg2
                  · exact h.1 g hg1
                  · have hgd := List.mem_singleton.mp hg2
                    injection hgd with hgd2
                    have hne := h.2 ch hcomp
                    have hpos : 1 ≤ ch.length := List.length_pos.mpr hne
                    rw [hgd2]
                    simp only [List.length_append, List.length_cons, List.length_nil]
                    omega
              | none =>
                  refine ⟨?_, fun ch2 hch => by simp at hch⟩
                  intro g hg
                  rcases List.mem_append.mp hg with hg1 | hg2
                  · exact h.1 g hg1
                  · have hgd := List.mem_singleton.mp hg2
                    cases hgd

/-- One driver step preserves the invariant. -/
theorem processSub_inv (st : PState) (line : String) (h : stInv st)
    (st2 : PState) (hs : processSub st line = Except.ok st2) : stInv st2 := by
  unfold processSub at hs
  cases hlp : line_parse line st.coordsys st.polyOff with
  | error e => rw [hlp] at hs; cases hs
  | ok pr =>
      obtain ⟨res, off2⟩ := pr
      rw [hlp] at hs
      injection hs with hst
      rw [← hst]
      exact applyResult_inv st res off2 h

/-- The invariant holds along the whole fold. -/
theorem processLines_inv :
    ∀ (subs : List String) (st : PState), stInv st →
    ∀ st2, processLines st subs = Except.ok st2 → stInv st2 := by
  intro subs
  induction subs with
  | nil =>
      intro st h st2 hs
      injection hs with h2
      rw [← h2]
      exact h
  | cons l rest ih =>
      intro st h st2 hs
      unfold processLines at hs
      cases hps : processSub st l with
      | error e => rw [hps] at hs; cases hs
      | ok st1 =>
          rw [hps] at hs
          exact ih st1 (processSub_inv st l h st1 hps) st2 hs

/-- C8: every composite group in a successful parse's output has at least two
member regions; and a chain still open at end of input is silently dropped —
the parse of `image` / `circle(1,2,3) ||` succeeds with an EMPTY output,
neither emitting the one-element chain nor flagging an error. -/
theorem claim_C8 :
    (∀ (lines : List String) (out : List Output) (g : List (String × List Value)),
        ds9_parse lines = Except.ok out → Output.composite g ∈ out → 2 ≤ g.length)
    ∧ ds9_parse ["image\n", "circle(1,2,3) ||\n"] = Except.ok [] := by
  constructor
  · intro lines out g hok hmem
    unfold ds9_parse ds9ParseFrom at hok
    cases hpl : processLines ⟨none, [], none, 0⟩ (subLines lines) with
    | error e => rw [hpl] at hok; cases hok
    | ok st =>
        rw [hpl] at hok
        have hinv := processLines_inv (subLines lines) ⟨none, [], none, 0⟩
          ⟨fun g2 hg2 => absurd hg2 (List.not_mem_nil _),
           fun ch hch => by cases hch⟩ st hpl
        injection hok with ho
        rw [← ho] at hmem
        exact hinv.1 g hmem
  · decide!

/-- C8 witness: the sealed composite of the two-line continuation example has
two members. -/
theorem claim_C8_witness : 2 ≤ c8chain.length :=
  claim_C8.1 ["image\n", "circle(1,2,3) ||\n", "box(4,5,6,7,8)\n"]
    [Output.composite c8chain] c8chain (by decide!) (List.mem_singleton.mpr rfl)

/-- At any iterator position, the polygon cycle yields only `coordinate`
field parsers. -/
theorem cycleTake_coord (k n : ℕ) :
    cycleTake [FieldKind.coord] k n = List.replicate n FieldKind.coord := by
  unfold cycleTake
  have h1 : ∀ i ∈ List.range n,
      [FieldKind.coord].getD ((k + i) % [FieldKind.coord].length) FieldKind.coord
        = FieldKind.coord := by
    intro i _
    simp [Nat.mod_one]
  rw [List.map_congr_left h1]
  simp [List.map_const']

/-- For every specification in `language_spec`, the token/field-kind pairing
does not depend on the shared cycle iterator's position. -/
theorem pairsOf_lang_off (rt : String) (spec : Specification)
    (h : language_spec rt = some spec) (toks : List String) (k k2 : ℕ) :
    pairsOf toks spec k = pairsOf toks spec k2 := by
  unfold language_spec at h
  split_ifs at h <;> cases h <;> simp [pairsOf, cycleTake_coord]

/-- `type_parser` is independent of the shared cycle iterator's position for
every region type of the language. -/
theorem type_parse_lang_off (rt : String) (spec : Specification)
    (h : language_spec rt = some spec) (s cs : String) (k k2 : ℕ) :
    type_parse s spec cs k = type_parse s spec cs k2 := by
  unfold type_parse
  rw [pairsOf_lang_off rt spec h (splitSep s) k k2]

/-- The parsed-line component of `regionParse` is independent of the shared
cycle iterator's position (only the returned position differs). -/
theorem regionParse_fst_off (line rt : String) (endIdx : ℕ) (spec : Specification)
    (h : language_spec rt = some spec) (cs : String) (k k2 : ℕ) :
    (regionParse line rt endIdx spec cs k).map Prod.fst
      = (regionParse line rt endIdx spec cs k2).map Prod.fst := by
  unfold regionParse
  cases hmap : coordsys_name_mapping cs with
  | some frame =>
      dsimp only
      rw [type_parse_lang_off rt spec h (coords_etc_of line endIdx) frame k k2]
      cases htp : type_parse (coords_etc_of line endIdx) spec frame k2 <;> rfl
  | none =>
      dsimp only
      rw [type_parse_lang_off rt spec h (coords_etc_of line endIdx) cs k k2]
      cases htp : type_parse (coords_etc_of line endIdx) spec cs k2 <;> rfl

/-- The classified-line component of `line_parser` is independent of the
shared cycle iterator's position. -/
theorem line_parse_fst_off (line : String) (coordsys : Option String) (k k2 : ℕ) :
    (line_parse line coordsys k).map Prod.fst
      = (line_parse line coordsys k2).map Prod.fst := by
  unfold line_parse
  cases hfi : findIdent line with
  | none => rfl
  | some pr =>
      obtain ⟨rt, endIdx⟩ := pr
      dsimp only
      by_cases hmem : rt ∈ coordinate_systems
      · simp only [if_pos hmem]
        rfl
      · simp only [if_neg hmem]
        cases hls : language_spec rt with
        | none => rfl
        | some spec =>
            cases coordsys with
            | none => rfl
            | some cs => exact regionParse_fst_off line rt endIdx spec hls cs k k2

/-- The state update respects `vis`: states agreeing on the visible fields
step to states agreeing on the visible fields, whatever iterator positions
they carry. -/
theorem applyResult_vis (st st2 : PState) (res : Option LineResult) (o o2 : ℕ)
    (h : vis st = vis st2) : vis (applyResult st res o) = vis (applyResult st2 res o2) := by
  have hc : st.coordsys = st2.coordsys := congrArg Prod.fst h
  have hr : st.regions = st2.regions := congrArg (fun v => v.2.1) h
  have hcm : st.composite = st2.composite := congrArg (fun v => v.2.2) h
  cases res with
  | none =>
      unfold applyResult vis
      dsimp only
      rw [hc, hr, hcm]
  | some lr =>
      cases lr with
      | coordsysName sName =>
          unfold applyResult vis
          dsimp only
          rw [hr, hcm]
      | region rt vals comp =>
          unfold applyResult
          cases comp with
          | true =>
              dsimp only
              rw [if_pos rfl, if_pos rfl, ← hcm]
              cases hcomp : st.composite with
              | none =>
                  unfold vis
                  dsimp only
                  rw [hc, hr]
              | some ch =>
                  unfold vis
                  dsimp only
                  rw [hc, hr]
          | false =>
              dsimp only
              rw [if_neg (by simp), if_neg (by simp), ← hcm]
              cases hcomp : st.composite with
              | some ch =>
                  unfold vis
                  dsimp only
                  rw [hc, hr]
              | none =>
                  unfold vis
                  dsimp only
                  rw [hc, hr]

/-- One driver step respects `vis`: the same line stepped from two states
agreeing on the visible fields either fails identically or produces states
agreeing on the visible fields. -/
theorem processSub_vis (st st2 : PState) (line : String) (h : vis st = vis st2) :
    (processSub st line).map vis = (processSub st2 line).map vis := by
  have hc : st.coordsys = st2.coordsys := congrArg Prod.fst h
  unfold processSub
  rw [← hc]
  have hlp := line_parse_fst_off line st.coordsys st.polyOff st2.polyOff
  cases h1 : line_parse line st.coordsys st.polyOff with
  | error e =>
      cases h2 : line_parse line st.coordsys st2.polyOff with
      | error e2 =>
          rw [h1, h2] at hlp
          simp only [Except.map] at hlp
          injection hlp with he
          rw [he]
      | ok pr2 =>
          rw [h1, h2] at hlp
          simp only [Except.map] at hlp
          cases hlp
  | ok pr =>
      obtain ⟨res, off⟩ := pr
      cases h2 : line_parse line st.coordsys st2.polyOff with
      | error e2 =>
          rw [h1, h2] at hlp
          simp only [Except.map] at hlp
          cases hlp
      | ok pr2 =>
          obtain ⟨res2, off2⟩ := pr2
          rw [h1, h2] at hlp
          simp only [Except.map] at hlp
          injection hlp with hres
          rw [← hres]
          dsimp only
          exact congrArg Except.ok (applyResult_vis st st2 res off off2 h)

/-- The whole fold respects `vis`. -/
theorem processLines_vis :
    ∀ (subs : List String) (st st2 : PState), vis st = vis st2 →
    (processLines st subs).map vis = (processLines st2 subs).map vis := by
  intro subs
  induction subs with
  | nil =>
      intro st st2 h
      simp only [processLines, Except.map]
      rw [h]
  | cons l rest ih =>
      intro st st2 h
      unfold processLines
      have hstep := processSub_vis st st2 l h
      cases h1 : processSub st l with
      | error e =>
          cases h2 : processSub st2 l with
          | error e2 =>
              rw [h1, h2] at hstep
              simp only [Except.map] at hstep
              injection hstep with he
              rw [he]
          | ok t2 =>
              rw [h1, h2] at hstep
              simp only [Except.map] at hstep
              cases hstep
      | ok t =>
          cases h2 : processSub st2 l with
          | error e2 =>
              rw [h1, h2] at hstep
              simp only [Except.map] at hstep
              cases hstep
          | ok t2 =>
              rw [h1, h2] at hstep
              simp only [Except.map] at hstep
              injection hstep with hv
              exact ih t t2 hv

/-- C9: the output of the whole-file parse does not depend on the position of
the module-level polygon cycle iterator — the only mutable state shared
between invocations.  Hence parsing the same file twice (the second run
starting from whatever iterator position the first run left behind) yields
structurally equal results. -/
theorem claim_C9 : ∀ (lines : List String) (k : ℕ),
    (ds9ParseFrom k lines).map Prod.fst = ds9_parse lines := by
  intro lines k
  unfold ds9_parse ds9ParseFrom
  have hv := processLines_vis (subLines lines) ⟨none, [], none, k⟩ ⟨none, [], none, 0⟩ rfl
  cases h1 : processLines ⟨none, [], none, k⟩ (subLines lines) with
  | error e =>
      cases h2 : processLines ⟨none, [], none, 0⟩ (subLines lines) with
      | error e2 =>
          rw [h1, h2] at hv
          simp only [Except.map] at hv
          injection hv with he
          rw [he]
          rfl
      | ok st2 =>
          rw [h1, h2] at hv
          simp only [Except.map] at hv
          cases hv
  | ok st =>
      cases h2 : processLines ⟨none, [], none, 0⟩ (subLines lines) with
      | error e2 =>
          rw [h1, h2] at hv
          simp only [Except.map] at hv
          cases hv
      | ok st2 =>
          rw [h1, h2] at hv
          simp only [Except.map] at hv
          injection hv with hvv
          have hreg : st.regions = st2.regions := congrArg (fun v => v.2.1) hvv
          dsimp only
          rw [hreg]
          rfl
